import Mathlib

/-!
Shallow embedding of the AppGitHubDossie repository:
* the repository tree walker (`walk` / `GET` in `app/api/repos/[owner]/[name]/tree/route.ts`),
* the dossier Markdown assembler (`buildDossierMarkdown` and helpers in `lib/dossier/markdown.ts`),
* the PDF export route (`POST` in `src/app/api/export/pdf/route.ts`).
External collaborators (the GitHub API client, the wall clock, `Date.toLocaleString`,
markdown-it, and the headless browser) are modelled as explicit function parameters;
everything else is translated from the source.
-/

namespace TreeWalk

/-- The `type` field of a GitHub content entry: `"file"`, `"dir"`, or anything
else (`"symlink"`, `"submodule"`, ...), which the walker skips. -/
inductive EntryType where
  | file
  | dir
  | other
deriving DecidableEq

/-- One entry of the listing returned by `octokit.repos.getContent`:
its full `path`, its `type`, and (for files) its `size`. -/
structure Entry where
  path : String
  etype : EntryType
  size : Option Nat
deriving DecidableEq

/-- An error thrown by the underlying fetch: an optional HTTP `status`
(`err?.status` in the source) and a message. -/
structure ApiErr where
  status : Option Nat
  message : String
deriving DecidableEq

/-- Modelled from the spec: `getErrorMessage` (from `app/_utils/errors`, not under
`src/`) normalizes a fetch failure "to their message"; it extracts the error's
message text. -/
def getErrorMessage (e : ApiErr) : String :=
  e.message

/-- The node type of the walker's output: `type: "file" | "dir"`. -/
inductive NodeType where
  | file
  | dir
deriving DecidableEq

/-- One node of the walker's output: `{ path, type, size? }`. -/
structure Node where
  path : String
  ntype : NodeType
  size : Option Nat
deriving DecidableEq

/-- The external GitHub content API, as a function from owner, repo and path to
either a listing or an error.  (`Array.isArray(data) ? data : [data]` is folded
into the listing itself.) -/
def Api : Type :=
  String → String → String → Except ApiErr (List Entry)

/-- The fixed recursion-depth cap of the walker (`const MAX_DEPTH = 6`). -/
def MAX_DEPTH : Nat := 6

/-- The `for (const e of entries)` loop of `walk`, abstracted over the recursive
call `recur` for sub-directories: a directory entry pushes a `dir` node and then
all nodes of the recursive walk of that directory; a file entry pushes a `file`
node with its size; any other entry (`symlink`, `submodule`, ...) is skipped.
A thrown error aborts the whole loop. -/
def walkEntries (recur : String → Except String (List Node)) :
    List Entry → Except String (List Node)
  | [] => .ok []
  | e :: rest =>
    match e.etype with
    | .dir =>
      match recur e.path with
      | .error msg => .error msg
      | .ok sub =>
        match walkEntries recur rest with
        | .error msg => .error msg
        | .ok tail => .ok (⟨e.path, .dir, none⟩ :: (sub ++ tail))
    | .file =>
      match walkEntries recur rest with
      | .error msg => .error msg
      | .ok tail => .ok (⟨e.path, .file, e.size⟩ :: tail)
    | .other => walkEntries recur rest

/-- Fuel-indexed translation of `walk`: `walkF api owner repo fuel path` is
`walk(owner, repo, path, depth)` at `fuel = MAX_DEPTH + 1 - depth`, so that the
guard `depth > MAX_DEPTH` becomes `fuel = 0` and the recursive call at
`depth + 1` becomes a call at `fuel - 1`.  A fetch error is normalized in the
`catch` block: status 404 becomes `"Not Found"`, anything else its message
(via `getErrorMessage`); an error rethrown from a recursive call carries no
`status`, so its message passes through the enclosing `catch` unchanged. -/
def walkF (api : Api) (owner repo : String) : Nat → String → Except String (List Node)
  | 0, _ => .ok []
  | f + 1, path =>
    match api owner repo path with
    | .error err =>
      .error (if err.status = some 404 then "Not Found" else getErrorMessage err)
    | .ok entries =>
      match walkEntries (walkF api owner repo f) entries with
      | .error msg => .error msg
      | .ok out => .ok out

/-- The walker `walk(owner, repo, path, depth)` itself, via the fuel translation
`fuel = MAX_DEPTH + 1 - depth` (natural subtraction: any `depth > MAX_DEPTH`
yields fuel `0`, i.e. the `return []` guard). -/
def walk (api : Api) (owner repo path : String) (depth : Nat) :
    Except String (List Node) :=
  walkF api owner repo (MAX_DEPTH + 1 - depth) path

/-- Body of the tree endpoint's response: either the JSON node list of
`NextResponse.json(nodes)` or the plain error text of `new NextResponse(msg)`. -/
inductive TreeBody where
  | json (nodes : List Node)
  | text (msg : String)
deriving DecidableEq

/-- A transport response of the tree endpoint: status code and body. -/
structure TreeResponse where
  status : Nat
  body : TreeBody
deriving DecidableEq

/-- The status-code mapping of the tree endpoint's `catch` block:
`"Unauthorized"` / `"No GitHub token"` map to 401, `"Not Found"` to 404,
anything else to 502. -/
def statusForMessage (msg : String) : Nat :=
  if msg = "Unauthorized" ∨ msg = "No GitHub token" then 401
  else if msg = "Not Found" then 404
  else 502

/-- The `GET` handler of the tree endpoint: walk from the root path at depth 0;
on success respond 200 with the JSON node list, on a thrown error respond with
`statusForMessage` of the error's message and the message as plain text. -/
def GET (api : Api) (owner name : String) : TreeResponse :=
  match walk api owner name "" 0 with
  | .ok nodes => ⟨200, .json nodes⟩
  | .error msg => ⟨statusForMessage msg, .text msg⟩

/-- A concrete external API used as witness input: every path lists a single
file `a.txt` of size 5. -/
def api0 : Api := fun _ _ _ => .ok [⟨"a.txt", .file, some 5⟩]

/-- The external API of the spec's end-to-end example 1: owner `acme`, repo
`demo`; the root lists file `README.md` (size 10) and directory `src`; `src`
lists file `src/index.ts` (size 20). -/
def demoApi : Api := fun owner repo path =>
  if owner = "acme" ∧ repo = "demo" then
    if path = "" then .ok [⟨"README.md", .file, some 10⟩, ⟨"src", .dir, none⟩]
    else if path = "src" then .ok [⟨"src/index.ts", .file, some 20⟩]
    else .error ⟨some 404, "Not Found"⟩
  else .error ⟨some 404, "Not Found"⟩

/-- A concrete external API used as witness input: every fetch fails with
HTTP status 500 and message `boom`. -/
def errApi : Api := fun _ _ _ => .error ⟨some 500, "boom"⟩

end TreeWalk

namespace Markdown

/-- The typed trie of `buildAsciiTree`: `type TreeNode = { children: Map<string, TreeNode> }`,
with the insertion-ordered `Map` represented as an association list. -/
inductive TreeNode where
  | mk (children : List (String × TreeNode))

/-- The `children` field of a trie node. -/
def TreeNode.children : TreeNode → List (String × TreeNode)
  | .mk cs => cs

/-- `Map.get`: the value stored under a key (first occurrence), if any. -/
def getChild : List (String × TreeNode) → String → Option TreeNode
  | [], _ => none
  | (k, t) :: rest, name => if k = name then some t else getChild rest name

/-- `Map.set`: replace the value under an existing key in place, or append a
new key at the end (JavaScript `Map` preserves insertion order). -/
def setChild : List (String × TreeNode) → String → TreeNode → List (String × TreeNode)
  | [], name, t => [(name, t)]
  | (k, u) :: rest, name, t =>
    if k = name then (k, t) :: rest else (k, u) :: setChild rest name t

/-- A node with no children, `{ children: new Map() }`. -/
def emptyNode : TreeNode := .mk []

/-- One pass of the trie-building loop body: walk down `parts`, creating a
fresh empty child wherever a part is missing (`if (!cur.children.has(part))
cur.children.set(part, ...)`; then `cur = cur.children.get(part)`). -/
def insertSeq : TreeNode → List String → TreeNode
  | t, [] => t
  | t, part :: rest =>
    .mk (setChild t.children part
      (insertSeq ((getChild t.children part).getD emptyNode) rest))

/-- `p.split(sep)` for a one-character separator, modelled character by
character: fold from the right, starting a new segment at each separator. -/
def splitChar (c0 : Char) (l : List Char) : List String :=
  l.foldr
    (fun c acc =>
      match acc with
      | [] => []
      | s :: rest => if c = c0 then "" :: s :: rest else (⟨c :: s.data⟩ :: rest))
    [""]

/-- `p.split("/").filter(Boolean)`: the non-empty slash-separated segments of a
path. -/
def segsOf (p : String) : List String :=
  (splitChar '/' p.data).filter (fun s => s ≠ "")

/-- The trie built from the flat path list (`for (const p of paths) ...`). -/
def buildTrie (paths : List String) : TreeNode :=
  paths.foldl (fun t p => insertSeq t (segsOf p)) emptyNode

/-- `[...node.children.entries()].sort(([a], [b]) => a.localeCompare(b))`, with
`localeCompare` modelled as the codepoint-lexicographic order on strings and
the comparator sort as a stable merge sort. -/
def sortChildren (cs : List (String × TreeNode)) : List (String × TreeNode) :=
  cs.mergeSort (fun a b => decide (a.1 ≤ b.1))

mutual

/-- The recursive `print(node, prefix)` of `buildAsciiTree`, returning the
lines it pushes: sort the children, then emit one branch line per child
followed by the lines of its subtree. -/
def renderNode (t : TreeNode) (pref : String) : List String :=
  renderEntries (sortChildren t.children) pref
termination_by sizeOf t
decreasing_by
  obtain ⟨cs⟩ := t
  have hp : sizeOf (sortChildren cs) = sizeOf cs :=
    (List.mergeSort_perm cs _).sizeOf_eq_sizeOf
  simp [TreeNode.children] at hp ⊢
  omega

/-- The `entries.forEach((…, idx) => …)` body of `print`: a non-last child uses
branch marker `┣` and continuation prefix `┃ ` + space, the last child uses the
terminal marker `┗` and blank continuation `  ` + space; a child's subtree is
printed only when it has children. -/
def renderEntries : List (String × TreeNode) → String → List String
  | [], _ => []
  | [(name, child)], pref =>
    (pref ++ "┗" ++ " " ++ name) ::
      (if 0 < child.children.length then
        renderNode child (pref ++ "  " ++ " ")
      else [])
  | (name, child) :: next :: rest, pref =>
    (pref ++ "┣" ++ " " ++ name) ::
      ((if 0 < child.children.length then
          renderNode child (pref ++ "┃ " ++ " ")
        else []) ++
        renderEntries (next :: rest) pref)
termination_by l _ => sizeOf l
decreasing_by
  all_goals simp
  all_goals omega

end

/-- `buildAsciiTree`: empty input renders as the empty string; otherwise build
the trie and join the printed lines with newlines. -/
def buildAsciiTree (paths : List String) : String :=
  if paths.length = 0 then ""
  else String.intercalate "\n" (renderNode (buildTrie paths) "")

/-- The branch line `${prefix}${branch} ${name}` with terminal marker `┗` for
the last sibling and `┣` otherwise. -/
def branchLine (pref : String) (isLast : Bool) (name : String) : String :=
  pref ++ (if isLast then "┗" else "┣") ++ " " ++ name

/-- The whole group of lines one child contributes: its branch line followed by
its printed subtree (when it has children). -/
def blockFor (pref : String) (isLast : Bool) (e : String × TreeNode) : List String :=
  branchLine pref isLast e.1 ::
    (if 0 < e.2.children.length then
      renderNode e.2 (pref ++ (if isLast then "  " else "┃ ") ++ " ")
    else [])

/-- Paths present in a trie: the root is present; `s :: rest` is present when
`s` is a child and `rest` is present in that child. -/
def hasPath : TreeNode → List String → Bool
  | _, [] => true
  | t, s :: rest =>
    match getChild t.children s with
    | none => false
    | some c => hasPath c rest

/-- Well-formedness invariant of tries built by insertion: children keys are
duplicate-free at every node. -/
inductive Wf : TreeNode → Prop where
  | mk (cs : List (String × TreeNode)) :
      (cs.map Prod.fst).Nodup → (∀ e ∈ cs, Wf e.2) → Wf (.mk cs)

/-- A commit review record.  Modelled from the spec: the `CommitReview` type is
imported from `app/_lib/dossier/commitAnalysis`, which is not under `src/`;
the spec lists its fields as "sha, message, timestamp, author-facing URL,
added/removed line counts, changed-file count, and a list of flags". -/
structure CommitReview where
  sha : String
  message : String
  date : String
  url : String
  additions : Nat
  deletions : Nat
  filesChanged : Nat
  flags : List String

/-- `DossierMeta`: owner, repo, optional description and default branch, and
optional language / extra-technology lists. -/
structure DossierMeta where
  owner : String
  repo : String
  description : Option String
  defaultBranch : Option String
  languages : Option (List String)
  techStackExtra : Option (List String)

/-- `FileOut`: a selected file's path and content. -/
structure FileOut where
  path : String
  content : String

/-- The optional `package.json` summary: name, version and the two
dependency maps (`Object.entries` order as association lists). -/
structure PackageJsonSummary where
  name : Option String
  version : Option String
  dependencies : Option (List (String × String))
  devDependencies : Option (List (String × String))

/-- The character class of `slug`'s kept characters (`[a-z0-9]` after
lower-casing). -/
def isSlugChar (c : Char) : Bool :=
  (('a' ≤ c && c ≤ 'z') || ('0' ≤ c && c ≤ '9'))

/-- `s.replace(/[^a-z0-9]+/g, "-")` at character level: every maximal run of
characters outside the class becomes a single `-`. -/
def slugChars : Bool → List Char → List Char
  | _, [] => []
  | inRun, c :: rest =>
    if isSlugChar c then c :: slugChars false rest
    else if inRun then slugChars true rest
    else '-' :: slugChars true rest

/-- `slug`: lower-case, then collapse non-alphanumeric runs to `-`. -/
def slug (s : String) : String :=
  ⟨slugChars false s.toLower.data⟩

/-- `fence`: wrap content in a fenced code block with a language tag
(`["```" + tag, content, "```"].join("\n")`; an undefined or empty language
yields an empty tag). -/
def fence (lang content : String) : String :=
  "```" ++ lang ++ "\n" ++ content ++ "\n```"

/-- `guessLang`: the extension→language-tag table (`path.split(".").pop()`,
lower-cased; unknown extensions yield the empty tag). -/
def guessLang (path : String) : String :=
  let ext := (((splitChar '.' path.data).getLastD "").toLower)
  match ext with
  | "ts" | "mts" | "cts" => "ts"
  | "tsx" => "tsx"
  | "js" | "mjs" | "cjs" => "js"
  | "jsx" => "jsx"
  | "json" => "json"
  | "md" | "markdown" => "md"
  | "yml" | "yaml" => "yaml"
  | "env" => "dotenv"
  | "css" => "css"
  | "html" => "html"
  | "sql" => "sql"
  | _ => ""

/-- `c.message.replace(/\|/g, "\\|")` at character level: every pipe becomes
backslash-pipe. -/
def escapePipes : List Char → List Char
  | [] => []
  | c :: rest =>
    if c = '|' then '\\' :: '|' :: escapePipes rest
    else c :: escapePipes rest

/-- `….split("\n")[0]` at character level: the first line. -/
def firstLine (l : List Char) : List Char :=
  l.takeWhile (fun c => c ≠ '\n')

/-- The commit table header of `renderCommits`. -/
def commitsHeader : String :=
  "| Data | SHA | Mensagem | +/- | Arquivos | Flags |\n|---|---|---|---:|---:|---|\n"

/-- One row of the commit table: formatted date, shortened linked sha, first
line of the pipe-escaped message, the signed added/removed delta `+N` slash
`-M`, changed-file count, and the
comma-joined flags or the `—` placeholder.  `dateToLocale` models
`new Date(d).toLocaleString()`. -/
def commitRow (dateToLocale : String → String) (c : CommitReview) : String :=
  let short := c.sha.take 7
  let flags := if String.intercalate ", " c.flags = "" then "—"
    else String.intercalate ", " c.flags
  let delta := "+" ++ toString c.additions ++ "/-" ++ toString c.deletions
  let msg : String := ⟨firstLine (escapePipes c.message.data)⟩
  "| " ++ dateToLocale c.date ++ " | [" ++ short ++ "](" ++ c.url ++ ") | " ++ msg
    ++ " | " ++ delta ++ " | " ++ toString c.filesChanged ++ " | " ++ flags ++ " |"

/-- `renderCommits`: the header followed by the newline-joined rows. -/
def renderCommits (dateToLocale : String → String) (commits : List CommitReview) :
    String :=
  commitsHeader ++ String.intercalate "\n" (commits.map (commitRow dateToLocale))

/-- `mkTable` of `renderPackageSummary`: a package/version table sorted by
package name, or an em-dash placeholder when empty. -/
def mkTable (title : String) (entries : List (String × String)) : String :=
  if entries.length ≠ 0 then
    "**" ++ title ++ "**\n\n| Pacote | Versão |\n|---|---|\n" ++
      String.intercalate "\n"
        ((entries.mergeSort (fun a b => decide (a.1 ≤ b.1))).map
          (fun e => "| " ++ e.1 ++ " | " ++ e.2 ++ " |")) ++ "\n"
  else "**" ++ title ++ "**\n\n_—_\n"

/-- `renderPackageSummary`: name/version line and the two dependency tables,
joined by blank lines. -/
def renderPackageSummary (pkg : PackageJsonSummary) : String :=
  let deps := pkg.dependencies.getD []
  let dev := pkg.devDependencies.getD []
  String.intercalate "\n\n"
    ["**Nome:** " ++ pkg.name.getD "—" ++ "  \n**Versão:** " ++ pkg.version.getD "—",
     mkTable "Dependencies" deps,
     mkTable "DevDependencies" dev]

/-- The fixed closing checklist of `renderDoubtsMerged`. -/
def doubtItems : List String :=
  ["Melhorar organização dos arquivos e remover duplicações.",
   "Refatorar componentes críticos e padronizar padrões.",
   "Otimizações de performance (lazy, cache, memoização).",
   "Garantir responsividade total (mobile-first).",
   "Ajustar chart de transações (corte/overflow).",
   "Criar um 2º plano de assinatura e regras.",
   "Criar design secundário para assinatura específica.",
   "Exibir pop-ups/notificações de atualização.",
   "Trazer saldo do mês anterior no dashboard.",
   "Selecionar período para feedback de IA.",
   "Reforçar boas práticas: commits granulares e descritivos."]

/-- `renderDoubtsMerged`: the static bullet list. -/
def renderDoubtsMerged : String :=
  String.intercalate "\n" (doubtItems.map (fun i => "- " ++ i))

/-- The template text of `buildDossierMarkdown` up to and including
`**Gerado em:** ` — everything before the wall-clock interpolation. -/
def dossierHeader (meta : DossierMeta) : String :=
  "# Dossiê do Projeto: " ++ meta.owner ++ "/" ++ meta.repo ++ "\n\n**Gerado em:** "

/-- The template text of `buildDossierMarkdown` after the wall-clock
interpolation: description/branch/tech-stack block, summary, and the eight
numbered sections. -/
def dossierBody (dateToLocale : String → String) (meta : DossierMeta)
    (files : List FileOut) (commitsReviewed : Option (List CommitReview))
    (allPathsFlat : Option (List String))
    (packageJsonSummary : Option PackageJsonSummary)
    (envExampleContent : Option String) : String :=
  let pathsForTree :=
    (allPathsFlat.getD (files.map (fun f => f.path))).mergeSort
      (fun a b => decide (a ≤ b))
  let treeText := buildAsciiTree pathsForTree
  let filesSections := String.intercalate "\n"
    (files.enum.map (fun ie =>
      String.intercalate "\n\n"
        ["### " ++ toString (ie.1 + 1) ++ ". " ++ ie.2.path,
         "<a id=\"" ++ slug ie.2.path ++ "\"></a>",
         fence (guessLang ie.2.path) ie.2.content,
         ""]))
  let commitsSection :=
    match commitsReviewed with
    | some l =>
      if l.length ≠ 0 then renderCommits dateToLocale l
      else "_Nenhum commit incluído no recorte._"
    | none => "_Nenhum commit incluído no recorte._"
  let pkgBlock :=
    match packageJsonSummary with
    | some pkg => renderPackageSummary pkg
    | none => "_Não localizado/selecionado._"
  let envBlock :=
    match envExampleContent with
    | some e => if e = "" then "_Não localizado/selecionado._" else fence "dotenv" e
    | none => "_Não localizado/selecionado._"
  let techStack := meta.languages.getD []
    ++ ["Next.js 14", "TypeScript", "TailwindCSS"]
    ++ meta.techStackExtra.getD []
  let techJoined := String.intercalate ", " techStack
  "\n\n> **Descrição:** " ++ meta.description.getD "—"
    ++ "\n>\n> **Branch padrão:** " ++ meta.defaultBranch.getD "main"
    ++ "\n>\n> **Linguagens/Tecnologias:** "
    ++ (if techJoined = "" then "—" else techJoined)
    ++ "\n\n---\n\n## Sumário\n\n- [1. Dados Gerais](#dados-gerais)\n- [2. Estrutura de Pastas e Arquivos](#estrutura-de-pastas-e-arquivos)\n- [3. Códigos Selecionados](#codigos-selecionados)\n- [4. Histórico de Commits](#historico-de-commits)\n- [5. Tecnologias Utilizadas](#tecnologias-utilizadas)\n- [6. Variáveis de Ambiente (.env.example)](#variaveis-de-ambiente-envexample)\n- [7. Dependências (package.json)](#dependencias-packagejson)\n- [8. Dúvidas, Pontos Críticos ou Melhorias](#duvidas-pontos-criticos-ou-melhorias)\n\n---\n\n## 1. Dados Gerais  <a id=\"dados-gerais\"></a>\n\n- Repositório: **"
    ++ meta.owner ++ "/" ++ meta.repo
    ++ "**\n- Descrição: " ++ meta.description.getD "—"
    ++ "\n- Branch padrão: " ++ meta.defaultBranch.getD "main"
    ++ "\n\n---\n\n## 2. Estrutura de Pastas e Arquivos  <a id=\"estrutura-de-pastas-e-arquivos\"></a>\n\n"
    ++ fence "text" (if treeText = "" then "—" else treeText)
    ++ "\n\n---\n\n## 3. Códigos Selecionados  <a id=\"codigos-selecionados\"></a>\n\n"
    ++ (if filesSections = "" then "_Nenhum arquivo selecionado._" else filesSections)
    ++ "\n\n---\n\n## 4. Histórico de Commits  <a id=\"historico-de-commits\"></a>\n\n"
    ++ commitsSection
    ++ "\n\n---\n\n## 5. Tecnologias Utilizadas  <a id=\"tecnologias-utilizadas\"></a>\n\n- "
    ++ String.intercalate "\n- " techStack
    ++ "\n\n---\n\n## 6. Variáveis de Ambiente (.env.example)  <a id=\"variaveis-de-ambiente-envexample\"></a>\n\n"
    ++ envBlock
    ++ "\n\n---\n\n## 7. Dependências (package.json)  <a id=\"dependencias-packagejson\"></a>\n\n"
    ++ pkgBlock
    ++ "\n\n---\n\n## 8. Dúvidas, Pontos Críticos ou Melhorias  <a id=\"duvidas-pontos-criticos-ou-melhorias\"></a>\n\n"
    ++ renderDoubtsMerged
    ++ "\n"

/-- `buildDossierMarkdown`: the full template, with the wall-clock read
`new Date().toLocaleString()` passed in as `now` (its only use is the
`**Gerado em:**` field) and `Date.toLocaleString` for commit dates passed in
as `dateToLocale`. -/
def buildDossierMarkdown (dateToLocale : String → String) (now : String)
    (meta : DossierMeta) (files : List FileOut)
    (commitsReviewed : Option (List CommitReview))
    (allPathsFlat : Option (List String))
    (packageJsonSummary : Option PackageJsonSummary)
    (envExampleContent : Option String) : String :=
  dossierHeader meta ++ now ++
    dossierBody dateToLocale meta files commitsReviewed allPathsFlat
      packageJsonSummary envExampleContent

end Markdown

namespace Pdf

/-- The parsed JSON body of the PDF endpoint:
`{markdown: string, title?: string}` (either field may be absent). -/
structure PdfBody where
  markdown : Option String
  title : Option String

/-- The body of a PDF endpoint response: binary PDF bytes or plain text. -/
inductive PdfRespBody where
  | pdf (bytes : List Nat)
  | text (s : String)
deriving DecidableEq

/-- A transport response of the PDF endpoint. -/
structure PdfResponse where
  status : Nat
  headers : List (String × String)
  body : PdfRespBody
deriving DecidableEq

/-- The allowlist of `sanitizeFileName`'s kept characters
(`[a-z0-9_\-\.]` with the `i` flag: ASCII letters, digits, `_`, `-`, `.`). -/
def allowedFileChar (c : Char) : Bool :=
  (('a' ≤ c && c ≤ 'z') || ('A' ≤ c && c ≤ 'Z') || ('0' ≤ c && c ≤ '9')
    || c = '_' || c = '-' || c = '.')

/-- `s.replace(/[^a-z0-9_\-\.]+/gi, "_")` at character level: the flag records
whether the current position is inside a disallowed run whose `_` was already
emitted, so every maximal run becomes a single `_`. -/
def sanAux : Bool → List Char → List Char
  | _, [] => []
  | inRun, c :: rest =>
    if allowedFileChar c then c :: sanAux false rest
    else if inRun then sanAux true rest
    else '_' :: sanAux true rest

/-- `sanChars`: the run-collapsing replacement on a character list. -/
def sanChars (l : List Char) : List Char :=
  sanAux false l

/-- `sanitizeFileName`. -/
def sanitizeFileName (s : String) : String :=
  ⟨sanChars s.data⟩

/-- `escapeHtml` on one character: ampersand, angle brackets and quotes become
entities. -/
def escapeHtmlChar (c : Char) : List Char :=
  if c = '&' then "&amp;".data
  else if c = '<' then "&lt;".data
  else if c = '>' then "&gt;".data
  else if c = '"' then "&quot;".data
  else if c = Char.ofNat 39 then "&#39;".data
  else [c]

/-- `escapeHtml`. -/
def escapeHtml (s : String) : String :=
  ⟨(s.data.map escapeHtmlChar).flatten⟩

/-- The fixed page shell around the rendered Markdown: doctype, escaped title
and the print stylesheet, with the body fragment inserted. -/
def htmlShell (titleEscaped bodyHtml : String) : String :=
  "<!doctype html>\n<html>\n<head>\n<meta charset=\"utf-8\"/>\n<title>"
    ++ titleEscaped
    ++ "</title>\n<style>\n  @page \x7b size: A4; margin: 20mm; \x7d\n  *,*::before,*::after \x7b box-sizing: border-box; \x7d\n  body \x7b font-family: ui-sans-serif, system-ui, -apple-system, \"Segoe UI\", Roboto, Arial; color:#111; \x7d\n  h1,h2,h3 \x7b color:#0f172a; margin: 18px 0 10px; \x7d\n  pre \x7b background:#0b1220; color:#e5e7eb; padding:12px; border-radius:8px;\n  white-space:pre; overflow-x:auto; overflow-wrap:normal; word-break:normal; \x7d\n  code \x7b white-space:inherit; \x7d\n  code \x7b font-family: ui-monospace, SFMono-Regular, Menlo, Consolas, \"Liberation Mono\", monospace; \x7d\n  a \x7b color:#0369a1; text-decoration:none; \x7d a:hover \x7b text-decoration:underline; \x7d\n  blockquote \x7b border-left:4px solid #e5e7eb; padding-left:10px; color:#374151; \x7d\n  hr \x7b border:none; border-top:1px solid #e5e7eb; margin:24px 0; \x7d\n  table \x7b border-collapse: collapse; width: 100%; \x7d\n  th, td \x7b border: 1px solid #e5e7eb; padding: 6px 8px; font-size: 12px; \x7d\n  th \x7b background: #f8fafc; text-align: left; \x7d\n</style>\n</head>\n<body>"
    ++ bodyHtml
    ++ "</body>\n</html>"

/-- The external collaborators of the PDF route: `mdRender` models
`new MarkdownIt({html:true, linkify:false, breaks:false}).render`; `launch`
models `getBrowserLauncher()` followed by `puppeteer.launch` (an error is a
failure thrown before any browser exists); `pdfBytes` models
`newPage`/`setContent`/`emulateMediaType`/`page.pdf` on the final HTML (an
error is a failure thrown after the browser was launched). -/
structure PdfEnv where
  mdRender : String → String
  launch : Except String Unit
  pdfBytes : String → Except String (List Nat)

/-- The `POST` handler of the PDF endpoint, as a function of the collaborators
and the outcome of `req.json()` (a rejected promise — e.g. an empty or
malformed request body, which is invalid JSON — is an `error` carrying the
parse failure's message).  Returns the response together with a flag recording
whether a browser was launched.  The falsy check `if (!markdown)` rejects both
an absent and an empty-string `markdown`; any thrown error is answered with
status 500 and `PDF error: ` plus the message; on success the PDF bytes carry
the attachment headers with the sanitized filename. -/
def POST (env : PdfEnv) (parsed : Except String PdfBody) : PdfResponse × Bool :=
  match parsed with
  | .error msg => (⟨500, [], .text ("PDF error: " ++ msg)⟩, false)
  | .ok body =>
    let title := body.title.getD "dossie"
    if body.markdown.getD "" = "" then
      (⟨400, [], .text "markdown required"⟩, false)
    else
      let markdown := body.markdown.getD ""
      let bodyHtml := env.mdRender markdown
      let html := htmlShell (escapeHtml title) bodyHtml
      match env.launch with
      | .error e => (⟨500, [], .text ("PDF error: " ++ e)⟩, false)
      | .ok _ =>
        match env.pdfBytes html with
        | .error e => (⟨500, [], .text ("PDF error: " ++ e)⟩, true)
        | .ok bytes =>
          (⟨200,
            [("Content-Type", "application/pdf"),
             ("Content-Disposition",
               "attachment; filename=\"" ++ sanitizeFileName title ++ ".pdf\""),
             ("Cache-Control", "no-store")],
            .pdf bytes⟩, true)

/-- A concrete environment used as witness input: identity renderer, a
successful launch, and a PDF generator returning an empty byte list. -/
def env0 : PdfEnv :=
  ⟨fun s => s, .ok (), fun _ => .ok []⟩

end Pdf

/-! ## Theorems -/

namespace TreeWalk

/-- Auxiliary: `walkEntries` distributes over list append, threading errors
left to right. -/
theorem walkEntries_append (recur : String → Except String (List Node))
    (l1 l2 : List Entry) :
    walkEntries recur (l1 ++ l2) =
      match walkEntries recur l1 with
      | .error m => .error m
      | .ok a =>
        match walkEntries recur l2 with
        | .error m => .error m
        | .ok b => .ok (a ++ b) := by
  induction l1 with
  | nil =>
    cases h2 : walkEntries recur l2 <;> simp [walkEntries, h2]
  | cons e rest ih =>
    cases he : e.etype
    · -- file entry
      simp only [List.cons_append, walkEntries, he, List.append_eq]
      rw [ih]
      cases walkEntries recur rest <;> cases walkEntries recur l2 <;> simp
    · -- dir entry
      simp only [List.cons_append, walkEntries, he, List.append_eq]
      cases hr : recur e.path
      · simp
      · rw [ih]
        cases walkEntries recur rest <;> cases walkEntries recur l2 <;> simp
    · -- other entry
      simp only [List.cons_append, walkEntries, he, List.append_eq]
      rw [ih]

/-- C1: once recursion depth exceeds the cap `MAX_DEPTH = 6` the walk of that
branch is the empty node list and no error is raised; at depth at most the cap
the listing is still fetched and its nodes returned (shown for a one-file
listing). -/
theorem walk_depth_cap (api : Api) (owner repo path : String) (depth : Nat) :
    (MAX_DEPTH < depth → walk api owner repo path depth = .ok []) ∧
    (depth ≤ MAX_DEPTH → ∀ (q : String) (sz : Option Nat),
      api owner repo path = .ok [⟨q, .file, sz⟩] →
      walk api owner repo path depth = .ok [⟨q, .file, sz⟩]) := by
  constructor
  · intro h
    have h0 : MAX_DEPTH + 1 - depth = 0 := by omega
    simp [walk, h0, walkF]
  · intro h q sz happi
    obtain ⟨f, hf⟩ : ∃ f, MAX_DEPTH + 1 - depth = f + 1 :=
      ⟨MAX_DEPTH - depth, by omega⟩
    simp [walk, hf, walkF, happi, walkEntries]

/-- Witness for C1 at concrete inputs: at depth 7 the branch yields no nodes,
at depth 6 the listed file is still returned. -/
theorem walk_depth_cap_witness :
    walk api0 "o" "r" "x" 7 = .ok [] ∧
    walk api0 "o" "r" "x" 6 = .ok [⟨"a.txt", NodeType.file, some 5⟩] :=
  ⟨(walk_depth_cap api0 "o" "r" "x" 7).1 (by decide),
   (walk_depth_cap api0 "o" "r" "x" 6).2 (by decide) "a.txt" (some 5) rfl⟩

/-- C2: in the walk's output every directory node is emitted immediately before
the nodes obtained by recursing into that directory (and after the nodes of the
entries listed before it); on the spec's end-to-end example the walk returns
exactly `[README.md (file, 10), src (dir), src/index.ts (file, 20)]`. -/
theorem walk_emits_dir_before_children
    (api : Api) (owner repo : String) (f : Nat) (l1 l2 : List Entry)
    (e : Entry) (out : List Node) :
    (e.etype = .dir →
      walkEntries (walkF api owner repo f) (l1 ++ e :: l2) = .ok out →
      ∃ a sub b,
        walkEntries (walkF api owner repo f) l1 = .ok a ∧
        walkF api owner repo f e.path = .ok sub ∧
        walkEntries (walkF api owner repo f) l2 = .ok b ∧
        out = a ++ (⟨e.path, .dir, none⟩ :: sub) ++ b) ∧
    walk demoApi "acme" "demo" "" 0 =
      .ok [⟨"README.md", .file, some 10⟩, ⟨"src", .dir, none⟩,
           ⟨"src/index.ts", .file, some 20⟩] := by
  constructor
  · intro hdir hout
    rw [walkEntries_append] at hout
    cases h1 : walkEntries (walkF api owner repo f) l1 with
    | error m => rw [h1] at hout; simp at hout
    | ok a =>
      rw [h1] at hout
      simp only [walkEntries, hdir] at hout
      cases hs : walkF api owner repo f e.path with
      | error m => rw [hs] at hout; simp at hout
      | ok sub =>
        rw [hs] at hout
        cases h2 : walkEntries (walkF api owner repo f) l2 with
        | error m => rw [h2] at hout; simp at hout
        | ok b =>
          rw [h2] at hout
          simp only [] at hout
          refine ⟨a, sub, b, rfl, rfl, rfl, ?_⟩
          cases hout
          simp
  · rfl

/-- Witness for C2: the decomposition applied to the singleton listing of the
example's `src` directory. -/
theorem walk_emits_dir_before_children_witness :
    ∃ a sub b,
      walkEntries (walkF demoApi "acme" "demo" 6) [] = .ok a ∧
      walkF demoApi "acme" "demo" 6 "src" = .ok sub ∧
      walkEntries (walkF demoApi "acme" "demo" 6) [] = .ok b ∧
      [⟨"src", NodeType.dir, none⟩, ⟨"src/index.ts", NodeType.file, some 20⟩] =
        a ++ (⟨"src", NodeType.dir, none⟩ :: sub) ++ b :=
  (walk_emits_dir_before_children demoApi "acme" "demo" 6 [] []
      ⟨"src", EntryType.dir, none⟩
      [⟨"src", NodeType.dir, none⟩, ⟨"src/index.ts", NodeType.file, some 20⟩]).1
    rfl rfl

/-- C3: a fetch failure with underlying status 404 is normalized to
`"Not Found"` and any other fetch failure to its message; the `GET` handler
maps the thrown message to the transport status via `statusForMessage`, which
sends `"Unauthorized"` and `"No GitHub token"` to 401, `"Not Found"` to 404,
and everything else to the generic server-side code 502. -/
theorem tree_endpoint_error_mapping
    (api : Api) (owner name path : String) (depth : Nat) (err : ApiErr)
    (msg : String) :
    (depth ≤ MAX_DEPTH → api owner name path = .error err →
      walk api owner name path depth =
        .error (if err.status = some 404 then "Not Found" else getErrorMessage err)) ∧
    (walk api owner name "" 0 = .error msg →
      GET api owner name = ⟨statusForMessage msg, .text msg⟩) ∧
    ((msg = "Unauthorized" ∨ msg = "No GitHub token") → statusForMessage msg = 401) ∧
    (msg = "Not Found" → statusForMessage msg = 404) ∧
    (msg ≠ "Unauthorized" → msg ≠ "No GitHub token" → msg ≠ "Not Found" →
      statusForMessage msg = 502) := by
  refine ⟨?_, ?_, ?_, ?_, ?_⟩
  · intro h happi
    obtain ⟨f, hf⟩ : ∃ f, MAX_DEPTH + 1 - depth = f + 1 :=
      ⟨MAX_DEPTH - depth, by omega⟩
    simp [walk, hf, walkF, happi]
  · intro hw
    simp [GET, hw]
  · intro h
    simp [statusForMessage, h]
  · intro h
    subst h
    simp [statusForMessage]
  · intro h1 h2 h3
    simp [statusForMessage, h1, h2, h3]

/-- Witness for C3 at concrete inputs: a status-500 fetch failure with message
`boom` propagates as `boom` and the handler answers 502; the three message
classes map to 401, 404 and 502. -/
theorem tree_endpoint_error_mapping_witness :
    walk errApi "o" "r" "" 0 =
      .error (if (some 500 : Option Nat) = some 404 then "Not Found"
              else getErrorMessage ⟨some 500, "boom"⟩) ∧
    GET errApi "o" "r" = ⟨statusForMessage "boom", .text "boom"⟩ ∧
    statusForMessage "No GitHub token" = 401 ∧
    statusForMessage "Not Found" = 404 ∧
    statusForMessage "boom" = 502 := by
  have h := tree_endpoint_error_mapping errApi "o" "r" "" 0 ⟨some 500, "boom"⟩ "boom"
  refine ⟨h.1 (by decide) rfl, h.2.1 ?_, ?_, ?_, h.2.2.2.2 (by decide) (by decide) (by decide)⟩
  · have h1 := h.1 (by decide) rfl
    simpa using h1
  · exact (tree_endpoint_error_mapping errApi "o" "r" "" 0 ⟨some 500, "boom"⟩
      "No GitHub token").2.2.1 (Or.inr rfl)
  · exact (tree_endpoint_error_mapping errApi "o" "r" "" 0 ⟨some 500, "boom"⟩
      "Not Found").2.2.2.1 rfl

end TreeWalk

namespace Markdown

/-- Auxiliary: the sorted sibling list is pairwise ordered by name. -/
theorem sortChildren_pairwise (cs : List (String × TreeNode)) :
    (sortChildren cs).Pairwise (fun a b => a.1 ≤ b.1) := by
  have h := @List.sorted_mergeSort (String × TreeNode)
    (fun a b => decide (a.1 ≤ b.1))
    (fun a b c h1 h2 => by
      simp only [decide_eq_true_eq] at h1 h2 ⊢
      exact le_trans h1 h2)
    (fun a b => by simpa using le_total a.1 b.1) cs
  exact h.imp (fun h => by simpa using h)

/-- Auxiliary: `sortChildren` permutes the children. -/
theorem sortChildren_perm (cs : List (String × TreeNode)) :
    List.Perm (sortChildren cs) cs :=
  List.mergeSort_perm cs _

/-- Auxiliary: rendering a sibling list that ends at `e` produces the blocks of
the earlier siblings with the non-terminal marker followed by the block of `e`
with the terminal marker. -/
theorem renderEntries_concat (l : List (String × TreeNode)) (e : String × TreeNode)
    (pref : String) :
    renderEntries (l ++ [e]) pref =
      (l.map (blockFor pref false)).flatten ++ blockFor pref true e := by
  induction l with
  | nil =>
    obtain ⟨name, child⟩ := e
    simp [renderEntries, blockFor, branchLine]
  | cons x l ih =>
    obtain ⟨name, child⟩ := x
    cases hl : l ++ [e] with
    | nil => exact absurd hl (by simp)
    | cons y ys =>
      rw [List.cons_append, hl]
      rw [renderEntries]
      rw [← hl, ih]
      simp [blockFor, branchLine]

/-- C4: the renderer emits siblings in lexicographic name order at every level,
the terminal branch marker differs from the non-terminal one, and in every
non-empty sibling group exactly the last child carries the terminal marker:
the rendered lines decompose into one block per sorted child, the last flagged
terminal and all earlier ones non-terminal, with exactly one terminal flag. -/
theorem ascii_tree_sorted_unique_terminal
    (paths : List String) (cs : List (String × TreeNode)) (pref name : String) :
    (paths ≠ [] →
      buildAsciiTree paths =
        String.intercalate "\n" (renderNode (buildTrie paths) "")) ∧
    (sortChildren cs).Pairwise (fun a b => a.1 ≤ b.1) ∧
    branchLine pref true name ≠ branchLine pref false name ∧
    (cs ≠ [] → ∃ front lastE,
      sortChildren cs = front ++ [lastE] ∧
      renderNode (TreeNode.mk cs) pref =
        (((front.map fun e => (false, e)) ++ [(true, lastE)]).map
          fun fe => blockFor pref fe.1 fe.2).flatten ∧
      (((front.map fun e => (false, e)) ++ [(true, lastE)]).map Prod.fst).count true
        = 1) := by
  refine ⟨?_, sortChildren_pairwise cs, ?_, ?_⟩
  · intro h
    simp [buildAsciiTree, h]
  · intro h
    have h2 : (branchLine pref true name).data = (branchLine pref false name).data := by
      rw [h]
    simp [branchLine] at h2
  · intro hcs
    have hne : sortChildren cs ≠ [] := by
      intro h
      apply hcs
      have hlen := congrArg List.length h
      simp [sortChildren] at hlen
      exact hlen
    obtain (h | ⟨front, lastE, hfl⟩) := (sortChildren cs).eq_nil_or_concat'
    · exact absurd h hne
    refine ⟨front, lastE, hfl, ?_, ?_⟩
    · rw [renderNode]
      simp only [TreeNode.children]
      rw [hfl, renderEntries_concat]
      have hmap : (front.map fun e => (false, e)).map (fun fe => blockFor pref fe.1 fe.2)
          = front.map (blockFor pref false) := by
        rw [List.map_map]
        rfl
      simp [List.map_append, List.flatten_append, hmap]
    · simp [List.count_append, List.count_replicate]

/-- Witness for C4 at concrete inputs: two sibling paths `b`, `a` render as
`┣ a` then `┗ b`, and the sibling group decomposes with a single terminal
flag. -/
theorem ascii_tree_sorted_unique_terminal_witness :
    (buildAsciiTree ["b", "a"] =
      String.intercalate "\n" (renderNode (buildTrie ["b", "a"]) "")) ∧
    (∃ front lastE,
      sortChildren [("b", emptyNode), ("a", emptyNode)] = front ++ [lastE] ∧
      renderNode (TreeNode.mk [("b", emptyNode), ("a", emptyNode)]) "" =
        (((front.map fun e => (false, e)) ++ [(true, lastE)]).map
          fun fe => blockFor "" fe.1 fe.2).flatten ∧
      (((front.map fun e => (false, e)) ++ [(true, lastE)]).map Prod.fst).count true
        = 1) :=
  And.intro
    ((ascii_tree_sorted_unique_terminal ["b", "a"]
        [("b", emptyNode), ("a", emptyNode)] "" "n").1 (by simp))
    ((ascii_tree_sorted_unique_terminal ["b", "a"]
        [("b", emptyNode), ("a", emptyNode)] "" "n").2.2.2 (by simp))

/-- Auxiliary: a key is absent from the child map exactly when `get` misses. -/
theorem getChild_eq_none (cs : List (String × TreeNode)) (s : String) :
    getChild cs s = none ↔ s ∉ cs.map Prod.fst := by
  induction cs with
  | nil => simp [getChild]
  | cons e rest ih =>
    obtain ⟨k, t⟩ := e
    by_cases hk : k = s
    · subst hk
      simp [getChild]
    · simp [getChild, hk, ih, Ne.symm hk]

/-- Auxiliary: `get` after `set`. -/
theorem getChild_setChild (cs : List (String × TreeNode)) (k s : String) (v : TreeNode) :
    getChild (setChild cs k v) s = if k = s then some v else getChild cs s := by
  induction cs with
  | nil => simp [setChild, getChild]
  | cons e rest ih =>
    obtain ⟨k0, t0⟩ := e
    by_cases h0 : k0 = k
    · subst h0
      simp only [setChild, if_pos rfl, getChild]
      split <;> simp_all
    · by_cases h1 : k0 = s
      · subst h1
        have hks : ¬ k = k0 := fun h => h0 h.symm
        simp [setChild, h0, getChild, hks]
      · simp [setChild, h0, getChild, h1, ih]

/-- Auxiliary: the keys after `set`: unchanged when the key was present,
appended at the end otherwise. -/
theorem setChild_map_fst (cs : List (String × TreeNode)) (k : String) (v : TreeNode) :
    (setChild cs k v).map Prod.fst =
      if k ∈ cs.map Prod.fst then cs.map Prod.fst else cs.map Prod.fst ++ [k] := by
  induction cs with
  | nil => simp [setChild]
  | cons e rest ih =>
    obtain ⟨k0, t0⟩ := e
    by_cases h0 : k0 = k
    · subst h0
      simp [setChild]
    · have hks : ¬ k = k0 := fun h => h0 h.symm
      simp only [setChild, if_neg h0, List.map_cons, ih, List.mem_cons, hks, false_or]
      split <;> simp

/-- Auxiliary: every entry after `set` is an old entry or the new binding. -/
theorem mem_setChild (cs : List (String × TreeNode)) (k : String) (v : TreeNode) :
    ∀ e ∈ setChild cs k v, e ∈ cs ∨ e = (k, v) := by
  induction cs with
  | nil =>
    intro e he
    simp [setChild] at he
    exact Or.inr he
  | cons x rest ih =>
    obtain ⟨k0, t0⟩ := x
    intro e he
    by_cases h0 : k0 = k
    · subst h0
      simp [setChild] at he
      rcases he with he | he
      · exact Or.inr (by simp [he])
      · exact Or.inl (by simp [he])
    · simp [setChild, h0] at he
      rcases he with he | he
      · exact Or.inl (by simp [he])
      · rcases ih e he with h | h
        · exact Or.inl (by simp [h])
        · exact Or.inr h

/-- Auxiliary: a successful `get` returns a stored binding. -/
theorem getChild_mem (cs : List (String × TreeNode)) (s : String) (c : TreeNode) :
    getChild cs s = some c → (s, c) ∈ cs := by
  induction cs with
  | nil => simp [getChild]
  | cons e rest ih =>
    obtain ⟨k, t⟩ := e
    by_cases hk : k = s
    · subst hk
      simp [getChild]
      intro h
      exact Or.inl h.symm
    · simp [getChild, hk]
      intro h
      exact Or.inr (ih h)

/-- Auxiliary: with duplicate-free keys, a stored binding is what `get`
returns. -/
theorem mem_getChild (cs : List (String × TreeNode)) :
    (cs.map Prod.fst).Nodup → ∀ (k : String) (c : TreeNode),
      (k, c) ∈ cs → getChild cs k = some c := by
  induction cs with
  | nil => simp
  | cons e rest ih =>
    obtain ⟨k0, t0⟩ := e
    intro hnd k c hmem
    simp only [List.map_cons, List.nodup_cons] at hnd
    rcases List.mem_cons.mp hmem with h | h
    · have hk : k = k0 := congrArg Prod.fst h
      have hc : c = t0 := congrArg Prod.snd h
      subst hk
      subst hc
      simp [getChild]
    · have hkne : ¬ k0 = k := by
        intro he
        subst he
        exact hnd.1 (List.mem_map.mpr ⟨(k0, c), h, rfl⟩)
      simp only [getChild, hkne, if_false]
      exact ih hnd.2 k c h

/-- Auxiliary: the empty node is well-formed. -/
theorem Wf_emptyNode : Wf emptyNode :=
  Wf.mk [] (by simp) (by simp)

/-- Auxiliary: inserting a segment sequence preserves well-formedness. -/
theorem Wf_insertSeq : ∀ (l : List String) (t : TreeNode), Wf t → Wf (insertSeq t l) := by
  intro l
  induction l with
  | nil =>
    intro t h
    simpa [insertSeq] using h
  | cons part rest ih =>
    intro t h
    obtain ⟨cs⟩ := t
    cases h with
    | mk _ hnd hmem =>
    have hwfChild : Wf ((getChild cs part).getD emptyNode) := by
      cases hg : getChild cs part with
      | none => simpa using Wf_emptyNode
      | some c =>
        have hc := hmem (part, c) (getChild_mem cs part c hg)
        simpa using hc
    simp only [insertSeq, TreeNode.children]
    apply Wf.mk
    · rw [setChild_map_fst]
      split
      · exact hnd
      · rename_i hk
        simp [List.nodup_append, hnd, hk]
    · intro e he
      rcases mem_setChild _ _ _ e he with h1 | h1
      · exact hmem e h1
      · rw [h1]
        exact ih _ hwfChild

/-- Auxiliary: the trie built from any path list is well-formed. -/
theorem Wf_buildTrie (ps : List String) : Wf (buildTrie ps) := by
  rw [buildTrie]
  have h : ∀ t, Wf t → Wf (ps.foldl (fun t p => insertSeq t (segsOf p)) t) := by
    induction ps with
    | nil =>
      intro t h
      simpa using h
    | cons p ps ih =>
      intro t h
      rw [List.foldl_cons]
      exact ih _ (Wf_insertSeq _ _ h)
  exact h emptyNode Wf_emptyNode

/-- Auxiliary: paths present after inserting `l` are the previously present
paths together with the prefixes of `l`. -/
theorem hasPath_insertSeq : ∀ (l : List String) (t : TreeNode) (m : List String),
    hasPath (insertSeq t l) m = true ↔ (hasPath t m = true ∨ m <+: l) := by
  intro l
  induction l with
  | nil =>
    intro t m
    cases m with
    | nil => simp [insertSeq, hasPath]
    | cons s m' => simp [insertSeq, hasPath]
  | cons part rest ih =>
    intro t m
    obtain ⟨cs⟩ := t
    cases m with
    | nil => simp [hasPath]
    | cons s m' =>
      by_cases hsp : part = s
      · subst hsp
        have hgs := getChild_setChild cs part part
          (insertSeq ((getChild cs part).getD emptyNode) rest)
        rw [if_pos rfl] at hgs
        simp only [insertSeq, hasPath, TreeNode.children, hgs]
        rw [ih]
        cases hg : getChild cs part with
        | some c =>
          simp [hasPath, TreeNode.children, hg, List.cons_prefix_cons]
        | none =>
          cases m' with
          | nil =>
            simp [hasPath, emptyNode, TreeNode.children, getChild, hg,
              List.cons_prefix_cons]
          | cons x xs =>
            simp [hasPath, emptyNode, TreeNode.children, getChild, hg,
              List.cons_prefix_cons]
      · have hps : ¬ s = part := fun h => hsp h.symm
        simp [insertSeq, hasPath, TreeNode.children, getChild_setChild, hsp,
          List.cons_prefix_cons, hps]

/-- Auxiliary: paths present after folding the insertions of a path list. -/
theorem hasPath_foldl : ∀ (ps : List String) (t : TreeNode) (m : List String),
    hasPath (ps.foldl (fun t p => insertSeq t (segsOf p)) t) m = true ↔
      (hasPath t m = true ∨ ∃ p ∈ ps, m <+: segsOf p) := by
  intro ps
  induction ps with
  | nil =>
    intro t m
    simp
  | cons p ps ih =>
    intro t m
    rw [List.foldl_cons, ih, hasPath_insertSeq]
    constructor
    · rintro ((h | h) | ⟨q, hq, hpre⟩)
      · exact Or.inl h
      · exact Or.inr ⟨p, by simp, h⟩
      · exact Or.inr ⟨q, by simp [hq], hpre⟩
    · rintro (h | ⟨q, hq, hpre⟩)
      · exact Or.inl (Or.inl h)
      · rcases List.mem_cons.mp hq with rfl | hq'
        · exact Or.inl (Or.inr hpre)
        · exact Or.inr ⟨q, hq', hpre⟩

/-- Auxiliary: the trie of a path list contains exactly the root and the
non-empty prefixes of the paths' segment sequences. -/
theorem hasPath_buildTrie (ps : List String) (m : List String) :
    hasPath (buildTrie ps) m = true ↔ (m = [] ∨ ∃ p ∈ ps, m <+: segsOf p) := by
  rw [buildTrie, hasPath_foldl]
  cases m with
  | nil => simp [hasPath]
  | cons s m' => simp [hasPath, emptyNode, TreeNode.children, getChild]

/-- Auxiliary: one-segment paths are exactly the root's child keys. -/
theorem hasPath_singleton (t : TreeNode) (k : String) :
    (hasPath t [k] = true) ↔ k ∈ t.children.map Prod.fst := by
  constructor
  · intro h
    simp only [hasPath] at h
    cases hg : getChild t.children k with
    | none => rw [hg] at h; simp at h
    | some c => exact List.mem_map.mpr ⟨(k, c), getChild_mem _ _ _ hg, rfl⟩
  · intro h
    cases hg : getChild t.children k with
    | none => exact absurd h ((getChild_eq_none _ _).mp hg)
    | some c => simp [hasPath, hg]

/-- Auxiliary: a node has no children exactly when no one-segment path is
present. -/
theorem children_eq_nil_iff (t : TreeNode) :
    t.children = [] ↔ ∀ k, hasPath t [k] = false := by
  obtain ⟨cs⟩ := t
  simp only [TreeNode.children]
  constructor
  · intro h k
    subst h
    simp [hasPath, TreeNode.children, getChild]
  · intro h
    cases cs with
    | nil => rfl
    | cons e rest =>
      obtain ⟨k0, c0⟩ := e
      have h0 := h k0
      simp [hasPath, TreeNode.children, getChild] at h0

/-- Auxiliary: the children key list of a well-formed node is duplicate-free. -/
theorem Wf_nodup (t : TreeNode) : Wf t → (t.children.map Prod.fst).Nodup := by
  intro h
  cases h with
  | mk cs hnd _ => simpa [TreeNode.children] using hnd

/-- Auxiliary: two sibling lists with equal key sequences whose aligned
bindings satisfy `P` are pointwise related. -/
theorem forall₂_of_keys (P : String × TreeNode → String × TreeNode → Prop) :
    ∀ (l1 l2 : List (String × TreeNode)),
      l1.map Prod.fst = l2.map Prod.fst →
      (∀ k c1 c2, (k, c1) ∈ l1 → (k, c2) ∈ l2 → P (k, c1) (k, c2)) →
      List.Forall₂ P l1 l2 := by
  intro l1
  induction l1 with
  | nil =>
    intro l2 hmap _
    have h2 : l2 = [] := by simpa using hmap.symm
    subst h2
    exact List.Forall₂.nil
  | cons e1 r1 ih =>
    intro l2 hmap hP
    cases l2 with
    | nil => simp at hmap
    | cons e2 r2 =>
      obtain ⟨k1, c1⟩ := e1
      obtain ⟨k2, c2⟩ := e2
      simp only [List.map_cons, List.cons.injEq] at hmap
      obtain ⟨hk, hr⟩ := hmap
      subst hk
      refine List.Forall₂.cons (hP k1 c1 c2 (by simp) (by simp)) ?_
      exact ih r2 hr
        (fun k a b ha hb => hP k a b (List.mem_cons_of_mem _ ha) (List.mem_cons_of_mem _ hb))

/-- Auxiliary: rendering respects pointwise equality of sibling lists: equal
names, equal subtree renderings and equal child counts give equal lines. -/
theorem renderEntries_congr :
    ∀ (l1 l2 : List (String × TreeNode)),
      List.Forall₂
        (fun e1 e2 =>
          e1.1 = e2.1 ∧ (∀ pr, renderNode e1.2 pr = renderNode e2.2 pr) ∧
            e1.2.children.length = e2.2.children.length)
        l1 l2 →
      ∀ pref, renderEntries l1 pref = renderEntries l2 pref := by
  intro l1 l2 h
  induction h with
  | nil => intro pref; rfl
  | @cons a b r1 r2 h1 htail ih =>
    intro pref
    obtain ⟨n1, c1⟩ := a
    obtain ⟨n2, c2⟩ := b
    obtain ⟨hn, hrender, hlen⟩ := h1
    simp only at hn hlen
    subst hn
    cases htail with
    | nil =>
      simp only [renderEntries]
      refine congrArg (List.cons _) ?_
      rw [hlen]
      split
      · exact hrender _
      · rfl
    | @cons a' b' r1' r2' h1' htail' =>
      simp only [renderEntries]
      refine congrArg (List.cons _) ?_
      have hif : (if 0 < c1.children.length then renderNode c1 (pref ++ "┃ " ++ " ") else [])
          = (if 0 < c2.children.length then renderNode c2 (pref ++ "┃ " ++ " ") else []) := by
        rw [hlen]
        split
        · exact hrender _
        · rfl
      rw [hif, ih pref]

/-- Auxiliary: rendering only depends on the set of paths present in a
well-formed trie. -/
theorem renderNode_ext :
    ∀ (n : Nat) (t1 t2 : TreeNode), sizeOf t1 ≤ n → Wf t1 → Wf t2 →
      (∀ m, hasPath t1 m = hasPath t2 m) →
      ∀ pref, renderNode t1 pref = renderNode t2 pref := by
  intro n
  induction n with
  | zero =>
    intro t1 t2 hsz _ _ _ _
    exfalso
    obtain ⟨cs1⟩ := t1
    have h1 : sizeOf (TreeNode.mk cs1) = 1 + sizeOf cs1 := by simp
    omega
  | succ n ih =>
    intro t1 t2 hsz hw1 hw2 hext pref
    obtain ⟨cs1⟩ := t1
    obtain ⟨cs2⟩ := t2
    have hnd1 : (cs1.map Prod.fst).Nodup := by
      simpa [TreeNode.children] using Wf_nodup _ hw1
    have hnd2 : (cs2.map Prod.fst).Nodup := by
      simpa [TreeNode.children] using Wf_nodup _ hw2
    have hmem1 : ∀ e ∈ cs1, Wf e.2 := by
      cases hw1 with
      | mk _ _ hm => exact hm
    have hmem2 : ∀ e ∈ cs2, Wf e.2 := by
      cases hw2 with
      | mk _ _ hm => exact hm
    have hkeys : ∀ k, (k ∈ cs1.map Prod.fst ↔ k ∈ cs2.map Prod.fst) := by
      intro k
      have h1 := hasPath_singleton (TreeNode.mk cs1) k
      have h2 := hasPath_singleton (TreeNode.mk cs2) k
      simp only [TreeNode.children] at h1 h2
      rw [← h1, ← h2, hext [k]]
    have hperm1 := sortChildren_perm cs1
    have hperm2 := sortChildren_perm cs2
    have hnds1 : ((sortChildren cs1).map Prod.fst).Nodup :=
      ((hperm1.map Prod.fst).nodup_iff).mpr hnd1
    have hnds2 : ((sortChildren cs2).map Prod.fst).Nodup :=
      ((hperm2.map Prod.fst).nodup_iff).mpr hnd2
    have hsort1 : ((sortChildren cs1).map Prod.fst).Pairwise (· ≤ ·) :=
      List.Pairwise.map Prod.fst (fun a b h => h) (sortChildren_pairwise cs1)
    have hsort2 : ((sortChildren cs2).map Prod.fst).Pairwise (· ≤ ·) :=
      List.Pairwise.map Prod.fst (fun a b h => h) (sortChildren_pairwise cs2)
    have hpermkeys :
        List.Perm ((sortChildren cs1).map Prod.fst) ((sortChildren cs2).map Prod.fst) := by
      rw [List.perm_ext_iff_of_nodup hnds1 hnds2]
      intro k
      rw [(hperm1.map Prod.fst).mem_iff, (hperm2.map Prod.fst).mem_iff]
      exact hkeys k
    have hkeyeq : (sortChildren cs1).map Prod.fst = (sortChildren cs2).map Prod.fst :=
      List.eq_of_perm_of_sorted hpermkeys hsort1 hsort2
    have hF : List.Forall₂
        (fun e1 e2 =>
          e1.1 = e2.1 ∧ (∀ pr, renderNode e1.2 pr = renderNode e2.2 pr) ∧
            e1.2.children.length = e2.2.children.length)
        (sortChildren cs1) (sortChildren cs2) := by
      apply forall₂_of_keys _ _ _ hkeyeq
      intro k c1 c2 h1 h2
      have h1' : (k, c1) ∈ cs1 := hperm1.mem_iff.mp h1
      have h2' : (k, c2) ∈ cs2 := hperm2.mem_iff.mp h2
      have hg1 : getChild cs1 k = some c1 := mem_getChild cs1 hnd1 k c1 h1'
      have hg2 : getChild cs2 k = some c2 := mem_getChild cs2 hnd2 k c2 h2'
      have hsub : ∀ m, hasPath c1 m = hasPath c2 m := by
        intro m
        have h := hext (k :: m)
        simp only [hasPath, TreeNode.children, hg1, hg2] at h
        exact h
      have hwc1 : Wf c1 := by simpa using hmem1 (k, c1) h1'
      have hwc2 : Wf c2 := by simpa using hmem2 (k, c2) h2'
      refine ⟨rfl, ?_, ?_⟩
      · intro pr
        apply ih c1 c2 ?_ hwc1 hwc2 hsub
        have hp : sizeOf (k, c1) < sizeOf cs1 := List.sizeOf_lt_of_mem h1'
        have hps : sizeOf (k, c1) = 1 + sizeOf k + sizeOf c1 := by simp
        have hts : sizeOf (TreeNode.mk cs1) = 1 + sizeOf cs1 := by simp
        omega
      · have hkc : ∀ k', k' ∈ c1.children.map Prod.fst ↔ k' ∈ c2.children.map Prod.fst := by
          intro k'
          rw [← hasPath_singleton c1 k', ← hasPath_singleton c2 k', hsub [k']]
        have hpermc : List.Perm (c1.children.map Prod.fst) (c2.children.map Prod.fst) :=
          (List.perm_ext_iff_of_nodup (Wf_nodup _ hwc1) (Wf_nodup _ hwc2)).mpr hkc
        have hl := hpermc.length_eq
        simpa using hl
    rw [renderNode, renderNode]
    simp only [TreeNode.children]
    exact renderEntries_congr _ _ hF pref

/-- C10: the ASCII tree output depends only on the set of non-empty segment
sequences of the input paths — it is invariant under permutation, duplication
and empty path segments — and the empty path list renders as the empty
string. -/
theorem buildAsciiTree_set_invariant (ps qs : List String) :
    buildAsciiTree [] = "" ∧
    ((∀ l : List String, l ≠ [] →
        ((∃ p ∈ ps, segsOf p = l) ↔ (∃ q ∈ qs, segsOf q = l))) →
      buildAsciiTree ps = buildAsciiTree qs) := by
  refine ⟨rfl, ?_⟩
  intro hset
  have hext : ∀ m, hasPath (buildTrie ps) m = hasPath (buildTrie qs) m := by
    intro m
    rw [Bool.eq_iff_iff, hasPath_buildTrie, hasPath_buildTrie]
    cases m with
    | nil => simp
    | cons s m' =>
      have htrans : ∀ (as bs : List String),
          (∀ l : List String, l ≠ [] →
            ((∃ p ∈ as, segsOf p = l) → (∃ q ∈ bs, segsOf q = l))) →
          (∃ p ∈ as, s :: m' <+: segsOf p) → (∃ q ∈ bs, s :: m' <+: segsOf q) := by
        intro as bs hab ⟨p, hp, hpre⟩
        have hne : segsOf p ≠ [] := by
          intro h0
          rw [h0] at hpre
          simp at hpre
        obtain ⟨q, hq, hqe⟩ := hab (segsOf p) hne ⟨p, hp, rfl⟩
        exact ⟨q, hq, by rw [hqe]; exact hpre⟩
      constructor
      · rintro (h | h)
        · exact absurd h (by simp)
        · exact Or.inr (htrans ps qs (fun l hl => (hset l hl).mp) h)
      · rintro (h | h)
        · exact absurd h (by simp)
        · exact Or.inr (htrans qs ps (fun l hl => (hset l hl).mpr) h)
  have hrender : renderNode (buildTrie ps) "" = renderNode (buildTrie qs) "" :=
    renderNode_ext (sizeOf (buildTrie ps)) _ _ le_rfl
      (Wf_buildTrie ps) (Wf_buildTrie qs) hext ""
  have hemptyRender : renderNode (buildTrie []) "" = [] := by
    simp [renderNode, buildTrie, emptyNode, TreeNode.children, sortChildren,
      renderEntries]
  by_cases hps : ps = []
  · subst hps
    by_cases hqs : qs = []
    · subst hqs
      rfl
    · have hq : renderNode (buildTrie qs) "" = [] := by
        rw [← hrender, hemptyRender]
      simp [buildAsciiTree, hqs, hq, String.intercalate]
  · by_cases hqs : qs = []
    · subst hqs
      have hp : renderNode (buildTrie ps) "" = [] := by
        rw [hrender, hemptyRender]
      simp [buildAsciiTree, hps, hp, String.intercalate]
    · simp [buildAsciiTree, hps, hqs, hrender]

/-- Witness for C10: `["a/b"]` and `["a//b", "a/b", "a/b"]` contain the same
non-empty segment sequences and render identically. -/
theorem buildAsciiTree_set_invariant_witness :
    buildAsciiTree ["a/b"] = buildAsciiTree ["a//b", "a/b", "a/b"] :=
  (buildAsciiTree_set_invariant ["a/b"] ["a//b", "a/b", "a/b"]).2 (by
    intro l hl
    constructor
    · rintro ⟨p, hp, rfl⟩
      simp only [List.mem_singleton] at hp
      subst hp
      exact ⟨"a/b", by simp, rfl⟩
    · rintro ⟨q, hq, rfl⟩
      simp only [List.mem_cons, List.not_mem_nil, or_false] at hq
      rcases hq with rfl | rfl | rfl
      · exact ⟨"a/b", by simp, by decide⟩
      · exact ⟨"a/b", by simp, rfl⟩
      · exact ⟨"a/b", by simp, rfl⟩)

end Markdown

namespace Markdown

/-- C5: the assembled dossier is a pure function of its inputs apart from the
wall-clock read: two runs on identical inputs split as the same prefix and
suffix around their respective `now` strings, so the outputs are byte-identical
except for the generated-at field. -/
theorem dossier_deterministic_modulo_generated_at
    (dateToLocale : String → String) (now1 now2 : String) (meta : DossierMeta)
    (files : List FileOut) (commits : Option (List CommitReview))
    (paths : Option (List String)) (pkg : Option PackageJsonSummary)
    (env : Option String) :
    ∃ pre post : String,
      buildDossierMarkdown dateToLocale now1 meta files commits paths pkg env
        = pre ++ now1 ++ post ∧
      buildDossierMarkdown dateToLocale now2 meta files commits paths pkg env
        = pre ++ now2 ++ post :=
  ⟨dossierHeader meta,
   dossierBody dateToLocale meta files commits paths pkg env, rfl, rfl⟩

/-- Auxiliary: taking the first line commutes with pipe escaping (the escape
introduces no newline). -/
theorem firstLine_escapePipes (l : List Char) :
    firstLine (escapePipes l) = escapePipes (firstLine l) := by
  induction l with
  | nil => rfl
  | cons c rest ih =>
    by_cases hp : c = '|'
    · subst hp
      simpa [escapePipes, firstLine, List.takeWhile_cons] using ih
    · by_cases hn : c = '\n'
      · subst hn
        simp [escapePipes, firstLine, List.takeWhile_cons, hp]
      · simpa [escapePipes, firstLine, List.takeWhile_cons, hp, hn] using ih

/-- C6: the commit table is the header plus one row per input commit in input
order; each row shows the date, the linked 7-character sha, the pipe-escaped
first line of the message, the `+N` slash `-M` delta, the changed-file count
and the flags; an empty flag list renders as the `—` placeholder. -/
theorem commit_table_rows (dateToLocale : String → String)
    (commits : List CommitReview) (c : CommitReview) :
    renderCommits dateToLocale commits =
      commitsHeader
        ++ String.intercalate "\n" (commits.map (commitRow dateToLocale)) ∧
    (commits.map (commitRow dateToLocale)).length = commits.length ∧
    commitRow dateToLocale c =
      "| " ++ dateToLocale c.date ++ " | [" ++ c.sha.take 7 ++ "](" ++ c.url
        ++ ") | " ++ String.mk (escapePipes (firstLine c.message.data)) ++ " | "
        ++ ("+" ++ toString c.additions ++ "/-" ++ toString c.deletions) ++ " | "
        ++ toString c.filesChanged ++ " | "
        ++ (if String.intercalate ", " c.flags = "" then "—"
            else String.intercalate ", " c.flags) ++ " |" ∧
    (c.flags = [] →
      commitRow dateToLocale c =
        "| " ++ dateToLocale c.date ++ " | [" ++ c.sha.take 7 ++ "](" ++ c.url
          ++ ") | " ++ String.mk (escapePipes (firstLine c.message.data)) ++ " | "
          ++ ("+" ++ toString c.additions ++ "/-" ++ toString c.deletions) ++ " | "
          ++ toString c.filesChanged ++ " | " ++ "—" ++ " |") := by
  refine ⟨rfl, List.length_map _ _, ?_, ?_⟩
  · simp [commitRow, firstLine_escapePipes]
  · intro hf
    have hint : String.intercalate ", " ([] : List String) = "" := rfl
    simp [commitRow, firstLine_escapePipes, hf, hint]

/-- Witness for C6: a concrete commit with empty flags renders with the
placeholder flags column. -/
theorem commit_table_rows_witness :
    commitRow (fun s => s) ⟨"abcdef1234", "m", "d", "u", 3, 1, 2, []⟩ =
      "| " ++ (fun s : String => s) "d" ++ " | ["
        ++ ("abcdef1234" : String).take 7 ++ "](" ++ "u" ++ ") | "
        ++ String.mk (escapePipes (firstLine ("m" : String).data)) ++ " | "
        ++ ("+" ++ toString (3 : Nat) ++ "/-" ++ toString (1 : Nat)) ++ " | "
        ++ toString (2 : Nat) ++ " | " ++ "—" ++ " |" :=
  (commit_table_rows (fun s => s) []
    ⟨"abcdef1234", "m", "d", "u", 3, 1, 2, []⟩).2.2.2 rfl

end Markdown

namespace Pdf

/-- Counterexample for C7 as stated: a literally empty request body is invalid
JSON, so `req.json()` rejects and the catch-all answers 500 with a `PDF error:`
message — not 400 with `markdown required`. -/
theorem pdf_empty_body_counterexample :
    (POST env0 (.error "Unexpected end of JSON input")).1.status = 500 ∧
    ¬ ((POST env0 (.error "Unexpected end of JSON input")).1.status = 400 ∧
       (POST env0 (.error "Unexpected end of JSON input")).1.body =
         .text "markdown required") ∧
    (POST env0 (.error "Unexpected end of JSON input")).1.body =
      .text "PDF error: Unexpected end of JSON input" := by
  refine ⟨rfl, ?_, rfl⟩
  intro h
  exact absurd h.1 (by decide)

/-- C7 as amended: a request body that parses to JSON but lacks a truthy
`markdown` field is answered 400 `markdown required` with no browser launched;
a request body that fails JSON parsing (such as a literally empty body) is
instead answered 500 with `PDF error: ` plus the parse failure's message, also
with no browser launched. -/
theorem pdf_missing_markdown_amended (env : PdfEnv) (body : PdfBody)
    (msg : String) :
    ((body.markdown = none ∨ body.markdown = some "") →
      POST env (.ok body) = (⟨400, [], .text "markdown required"⟩, false)) ∧
    POST env (.error msg) = (⟨500, [], .text ("PDF error: " ++ msg)⟩, false) := by
  constructor
  · intro h
    rcases h with h | h <;> simp [POST, h]
  · rfl

/-- Witness for the amended C7 at concrete inputs. -/
theorem pdf_missing_markdown_amended_witness :
    POST env0 (.ok ⟨none, none⟩) = (⟨400, [], .text "markdown required"⟩, false) ∧
    POST env0 (.error "boom") =
      (⟨500, [], .text ("PDF error: " ++ "boom")⟩, false) :=
  ⟨(pdf_missing_markdown_amended env0 ⟨none, none⟩ "boom").1 (Or.inl rfl),
   (pdf_missing_markdown_amended env0 ⟨none, none⟩ "boom").2⟩

/-- Auxiliary: inside an already-emitted disallowed run, further disallowed
characters produce nothing. -/
theorem sanAux_run (r : List Char) :
    ∀ l, (∀ x ∈ r, allowedFileChar x = false) →
      sanAux true (r ++ l) = sanAux true l := by
  induction r with
  | nil =>
    intro l _
    rfl
  | cons c r ih =>
    intro l hall
    have hc : allowedFileChar c = false := hall c (by simp)
    simp only [List.cons_append, sanAux, hc, if_false, Bool.false_eq_true, if_true]
    exact ih l (fun x hx => hall x (by simp [hx]))

/-- C8: on the success path the attachment filename is the sanitized title plus
`.pdf`; the sanitizer keeps allowlisted characters, collapses every maximal
disallowed run to a single underscore, and maps `Q1 Report/2024` to
`Q1_Report_2024`. -/
theorem pdf_filename_sanitized (env : PdfEnv) (title mkd : String)
    (bytes : List Nat) (c : Char) (r l : List Char) :
    (mkd ≠ "" → env.launch = .ok () →
      env.pdfBytes (htmlShell (escapeHtml title) (env.mdRender mkd)) = .ok bytes →
      (POST env (.ok ⟨some mkd, some title⟩)).1.headers =
        [("Content-Type", "application/pdf"),
         ("Content-Disposition",
           "attachment; filename=\"" ++ sanitizeFileName title ++ ".pdf\""),
         ("Cache-Control", "no-store")]) ∧
    (allowedFileChar c = true → sanChars (c :: l) = c :: sanChars l) ∧
    ((∀ x ∈ r, allowedFileChar x = false) → r ≠ [] →
      (l = [] ∨ allowedFileChar (l.headD 'a') = true) →
      sanChars (r ++ l) = '_' :: sanChars l) ∧
    sanitizeFileName "Q1 Report/2024" = "Q1_Report_2024" := by
  refine ⟨?_, ?_, ?_, by decide⟩
  · intro hm hl hb
    simp [POST, hm, hl, hb]
  · intro hc
    simp [sanChars, sanAux, hc]
  · intro hall hne hl
    obtain ⟨c0, r0, rfl⟩ : ∃ c0 r0, r = c0 :: r0 := by
      cases r with
      | nil => exact absurd rfl hne
      | cons a b => exact ⟨a, b, rfl⟩
    have hc0 : allowedFileChar c0 = false := hall c0 (by simp)
    simp only [sanChars, List.cons_append, sanAux, hc0, Bool.false_eq_true,
      if_false, List.append_eq]
    rw [sanAux_run r0 l (fun x hx => hall x (by simp [hx]))]
    rcases hl with rfl | hd
    · rfl
    · cases l with
      | nil => rfl
      | cons h t =>
        simp only [List.headD_cons] at hd
        simp [sanAux, hd]

/-- Witness for C8 at concrete inputs. -/
theorem pdf_filename_sanitized_witness :
    (POST env0 (.ok ⟨some "x", some "t"⟩)).1.headers =
      [("Content-Type", "application/pdf"),
       ("Content-Disposition",
         "attachment; filename=\"" ++ sanitizeFileName "t" ++ ".pdf\""),
       ("Cache-Control", "no-store")] ∧
    sanChars ('a' :: []) = 'a' :: sanChars [] ∧
    sanChars ([' '] ++ []) = '_' :: sanChars [] :=
  ⟨(pdf_filename_sanitized env0 "t" "x" [] 'a' [' '] []).1 (by decide) rfl rfl,
   (pdf_filename_sanitized env0 "t" "x" [] 'a' [' '] []).2.1 (by decide),
   (pdf_filename_sanitized env0 "t" "x" [] 'a' [' '] []).2.2.1
     (by decide) (by decide) (Or.inl rfl)⟩

/-- C9: an empty-string `markdown` is falsy, so the endpoint rejects it exactly
like an absent one: status 400, body `markdown required`, no browser
launched. -/
theorem pdf_empty_string_markdown_rejected (env : PdfEnv) (title : Option String) :
    POST env (.ok ⟨some "", title⟩) = (⟨400, [], .text "markdown required"⟩, false) := by
  simp [POST]

end Pdf
